import Mathlib

/-!
Verification of the open-runtimes k8s executor against its specification.

The TypeScript sources under src/ are shallowly embedded: pure helpers become
Lean functions, JavaScript number/string primitives are modelled explicitly
(parseInt, parseFloat, trim, truthiness), Kubernetes reads are passed in as
explicit observation values, and wall-clock time is an explicit parameter.
IEEE-754 arithmetic in the log decoder is idealised as exact rational
arithmetic.
-/

namespace Executor

/-! ## JavaScript primitive models -/

/-- Whitespace characters recognised by JavaScript trim (the subset that can
occur in the executor's inputs: space, tab, LF, VT, FF, CR, NBSP). -/
def jsIsWhitespace (c : Char) : Bool :=
  c = ' ' || c = '\t' || c = '\n' || c = '\x0d' ||
  c.toNat = 11 || c.toNat = 12 || c.toNat = 160

/-- Model of String.prototype.trim. -/
def jsTrim (s : String) : String :=
  String.mk (((s.data.dropWhile jsIsWhitespace).reverse.dropWhile jsIsWhitespace).reverse)

/-- Numeric value of a list of decimal digit characters (most significant first). -/
def natOfDigits (l : List Char) : Nat :=
  l.foldl (fun a c => a * 10 + (c.toNat - 48)) 0

/-- Model of JavaScript parseInt(s, 10): skip leading whitespace, optional
sign, then the longest decimal-digit run; none models NaN. -/
def jsParseInt10 (s : String) : Option Int :=
  let cs := s.data.dropWhile jsIsWhitespace
  let signed : Int × List Char :=
    match cs with
    | '-' :: t => (-1, t)
    | '+' :: t => (1, t)
    | t => (1, t)
  let digits := signed.2.takeWhile Char.isDigit
  if digits.isEmpty then none
  else some (signed.1 * (natOfDigits digits : Int))

/-- Model of JavaScript parseFloat on plain decimal literals (the timing files
only contain digits and a decimal point; exponent and Infinity forms are not
modelled): skip leading whitespace, optional sign, digits, optional fraction.
The IEEE-754 double is idealised as the exact value numerator / denominator,
returned as an unreduced fraction with a positive power-of-ten denominator;
none models NaN. -/
def jsParseFloat (s : String) : Option (Int × Nat) :=
  let cs := s.data.dropWhile jsIsWhitespace
  let signed : Int × List Char :=
    match cs with
    | '-' :: t => (-1, t)
    | '+' :: t => (1, t)
    | t => (1, t)
  let intDigits := signed.2.takeWhile Char.isDigit
  let rest := signed.2.drop intDigits.length
  let fracDigits : List Char :=
    match rest with
    | '.' :: t => t.takeWhile Char.isDigit
    | _ => []
  if intDigits.isEmpty && fracDigits.isEmpty then none
  else
    some
      (signed.1 * ((natOfDigits intDigits * 10 ^ fracDigits.length
          + natOfDigits fracDigits : Nat) : Int),
        10 ^ fracDigits.length)

/-- JavaScript string-or-default: `v || dflt` where undefined and the empty
string are falsy. -/
def jsOrStr (v : Option String) (dflt : String) : String :=
  match v with
  | none => dflt
  | some s => if s = "" then dflt else s

/-- Ceiling of the fraction n / d for a positive denominator; models
Math.ceil on the exact value (Euclidean division by a positive divisor is
floor division). -/
def intCeilDiv (n : Int) (d : Nat) : Int :=
  -((-n).ediv (d : Int))

/-- Truncation toward zero of the fraction n / d; models the TimeClip step
of the Date constructor on a fractional millisecond value. -/
def intTruncDiv (n : Int) (d : Nat) : Int :=
  Int.tdiv n (d : Int)

/-- Model of String.prototype.toLowerCase (header names are ASCII). -/
def jsToLower (s : String) : String :=
  String.mk (s.data.map Char.toLower)

/-- Model of String.prototype.startsWith. -/
def jsStartsWith (s pre : String) : Bool :=
  pre.data.isPrefixOf s.data

/-- Model of the JavaScript string < comparison: lexicographic on code
units (the code points of these ASCII header values). -/
def charListLt : List Char → List Char → Bool
  | [], [] => false
  | [], _ :: _ => true
  | _ :: _, [] => false
  | a :: as, b :: bs =>
    if a.toNat < b.toNat then true
    else if b.toNat < a.toNat then false
    else charListLt as bs

/-- Lexicographic string comparison used on x-executor-response-format. -/
def jsStrLt (a b : String) : Bool :=
  charListLt a.data b.data

/-- Splitting on a single separator character (accumulator holds the current
field reversed). -/
def splitOnCharAux (sep : Char) : List Char → List Char → List (List Char)
  | [], acc => [acc.reverse]
  | c :: rest, acc =>
    if c = sep then acc.reverse :: splitOnCharAux sep rest []
    else splitOnCharAux sep rest (c :: acc)

/-- Model of String.prototype.split with a one-character separator. -/
def jsSplit (s : String) (sep : Char) : List String :=
  (splitOnCharAux sep s.data []).map String.mk

/-- First-occurrence replacement on character lists; models
String.prototype.replace with a string pattern (only used with the nonempty
pattern "Z"). -/
def replaceFirstAux (pat rep : List Char) : List Char → List Char
  | [] => []
  | c :: rest =>
    if pat.isPrefixOf (c :: rest) then rep ++ (c :: rest).drop pat.length
    else c :: replaceFirstAux pat rep rest

/-- Model of s.replace(pat, rep) replacing the first occurrence only. -/
def jsReplaceFirst (s pat rep : String) : String :=
  String.mk (replaceFirstAux pat.data rep.data s.data)

/-! ## Date.prototype.toISOString model -/

/-- Decimal digit character for a value below ten. -/
def digitChar : Nat → Char
  | 0 => '0'
  | 1 => '1'
  | 2 => '2'
  | 3 => '3'
  | 4 => '4'
  | 5 => '5'
  | 6 => '6'
  | 7 => '7'
  | 8 => '8'
  | _ => '9'

/-- Decimal digit characters, most significant first, with structural fuel
(any fuel above the digit count gives the same result). -/
def natDigitsAux : Nat → Nat → List Char
  | 0, _ => []
  | fuel + 1, n =>
    if n < 10 then [digitChar n]
    else natDigitsAux fuel (n / 10) ++ [digitChar (n % 10)]

/-- Decimal digit characters of a natural number, most significant first. -/
def natDigits (n : Nat) : List Char :=
  natDigitsAux (n + 1) n

/-- Digits of n left-padded with zeros to the given width. -/
def padDigits (n w : Nat) : List Char :=
  List.replicate (w - (natDigits n).length) '0' ++ natDigits n

/-- Gregorian civil date (year, month, day) from days since 1970-01-01. -/
def civilFromDays (z0 : Int) : Int × Int × Int :=
  let z := z0 + 719468
  let era := z.ediv 146097
  let doe := z - era * 146097
  let yoe := (doe - doe.ediv 1460 + doe.ediv 36524 - doe.ediv 146096).ediv 365
  let y := yoe + era * 400
  let doy := doe - (365 * yoe + yoe.ediv 4 - yoe.ediv 100)
  let mp := (5 * doy + 2).ediv 153
  let d := doy - (153 * mp + 2).ediv 5 + 1
  let m := mp + (if mp < 10 then 3 else -9)
  (y + (if m ≤ 2 then 1 else 0), m, d)

/-- Year part of the ISO rendering (years outside 0..9999 use the six-digit
expanded form). -/
def yearChars (y : Int) : List Char :=
  if 0 ≤ y ∧ y ≤ 9999 then padDigits y.toNat 4
  else if 9999 < y then '+' :: padDigits y.toNat 6
  else '-' :: padDigits (-y).toNat 6

/-- Characters of Date.prototype.toISOString without the trailing Z:
"YYYY-MM-DDTHH:MM:SS.sss". -/
def isoCoreChars (ms : Int) : List Char :=
  let day := ms.ediv 86400000
  let msOfDay := (ms.emod 86400000).toNat
  let ymd := civilFromDays day
  yearChars ymd.1 ++ '-' :: padDigits ymd.2.1.toNat 2 ++
    '-' :: padDigits ymd.2.2.toNat 2 ++
    'T' :: padDigits (msOfDay / 3600000) 2 ++
    ':' :: padDigits (msOfDay % 3600000 / 60000) 2 ++
    ':' :: padDigits (msOfDay % 60000 / 1000) 2 ++
    '.' :: padDigits (msOfDay % 1000) 3

/-- toISOString without the trailing Z, as a string. -/
def isoCore (ms : Int) : String :=
  String.mk (isoCoreChars ms)

/-- Model of Date.prototype.toISOString for a UTC millisecond timestamp. -/
def toISOString (ms : Int) : String :=
  String.mk (isoCoreChars ms ++ ['Z'])

/-! ## src/utils/errors.ts -/

/-- Error response body built by createErrorResponse (the code field defaults
to 500 in the source; callers here pass it explicitly). -/
structure ErrBody where
  type : String
  message : String
  code : Nat
deriving DecidableEq

/-- Model of createErrorResponse. -/
def createErrorResponse (t message : String) (code : Nat) : ErrBody :=
  { type := t, message := message, code := code }

/-! ## src/utils/runtime.ts: annotations and status -/

/-- Lookup in a JavaScript string-keyed object, modelled as an
insertion-ordered association list. -/
def annLookup (anns : List (String × String)) (k : String) : Option String :=
  (anns.find? (fun p => p.1 == k)).map Prod.snd

/-- Runtime status shape returned by getRuntimeStatus; created and updated
are none when parseInt yields NaN. -/
structure RuntimeStatusInfo where
  status : String
  initialised : Nat
  listening : Nat
  created : Option Int
  updated : Option Int
deriving DecidableEq

/-- Model of getRuntimeStatus: the argument is the result of reading the
Deployment (none models a thrown read; some carries its annotations). -/
def getRuntimeStatus (depRead : Option (List (String × String))) :
    Option RuntimeStatusInfo :=
  match depRead with
  | none => none
  | some anns =>
    some
      { status := jsOrStr (annLookup anns "appwrite.io/status") "pending"
        initialised :=
          if annLookup anns "appwrite.io/initialised" = some "1" then 1 else 0
        listening :=
          if annLookup anns "appwrite.io/listening" = some "1" then 1 else 0
        created := jsParseInt10 (jsOrStr (annLookup anns "appwrite.io/created") "0")
        updated := jsParseInt10 (jsOrStr (annLookup anns "appwrite.io/updated") "0") }

/-! ## src/routes/runtimes.ts: create precheck (C1) -/

/-- Mutating cluster operations the handlers can issue. -/
inductive K8sAction
  | patchReplicas (deploymentName : String) (value : Int)
  | createResources (runtimeId : String)
deriving DecidableEq

/-- Outcome of the create handler up to the duplicate check: an early error
response (body plus HTTP status) or permission to proceed to the build. -/
inductive CreateResult
  | errorResp (body : ErrBody) (httpStatus : Nat)
  | proceed
deriving DecidableEq

/-- Model of POST /v1/runtimes lines 59-79: field validation, then the
runtimeExists check (existsRead is the outcome of the first Deployment read)
followed by getRuntimeStatus on a second read (statusRead). -/
def createPrecheck (runtimeId image : String) (existsRead : Bool)
    (statusRead : Option (List (String × String))) : CreateResult :=
  if runtimeId = "" || image = "" then
    CreateResult.errorResp
      (createErrorResponse "execution_bad_request"
        "Missing required fields: runtimeId, image" 500) 400
  else if existsRead then
    match getRuntimeStatus statusRead with
    | some st =>
      if st.status = "pending" then
        CreateResult.errorResp
          (createErrorResponse "runtime_conflict"
            "A runtime with the same ID is already being created. Attempt an execution soon."
            500) 409
      else
        CreateResult.errorResp
          (createErrorResponse "runtime_conflict" "Runtime already exists" 500) 409
    | none =>
      CreateResult.errorResp
        (createErrorResponse "runtime_conflict" "Runtime already exists" 500) 409
  else CreateResult.proceed

/-- Mutating actions issued by the create handler: the conflict and
bad-request branches return before any Service, Deployment, or Job creation,
so only the proceed branch reaches the remainder of the handler (abstracted
as its action list). -/
def createRuntimeActions (runtimeId image : String) (existsRead : Bool)
    (statusRead : Option (List (String × String)))
    (proceedActions : List K8sAction) : List K8sAction :=
  match createPrecheck runtimeId image existsRead statusRead with
  | CreateResult.errorResp _ _ => []
  | CreateResult.proceed => proceedActions

/-! ## src/routes/runtimes.ts: cold start and readiness poll (C2) -/

/-- Readiness poll window of the execution route (60 * 1000 ms). -/
def readyTimeoutMs : Nat := 60000

/-- Poll interval of the readiness loop (delay(500)). -/
def readyPollIntervalMs : Nat := 500

/-- Replicas patch decided by the execution route: currentReplicas is
deployment.spec?.replicas || 0 and the JSON-patch to 1 is issued iff it is
zero. -/
def coldStartPatchActions (deploymentName : String) (replicas : Option Int) :
    List K8sAction :=
  if replicas.getD 0 = 0 then [K8sAction.patchReplicas deploymentName 1] else []

/-- Readiness polling loop: obs n is status.readyReplicas observed by the
n-th Deployment read (none when the field is absent); reads are modelled as
instantaneous, so the n-th read happens at elapsed n * 500 ms. -/
def waitReadyFrom (obs : Nat → Option Int) (elapsed i : Nat) : Bool :=
  if elapsed < readyTimeoutMs then
    if obs i = some 1 then true
    else waitReadyFrom obs (elapsed + readyPollIntervalMs) (i + 1)
  else false
termination_by readyTimeoutMs - elapsed
decreasing_by
  simp [readyPollIntervalMs]
  omega

/-- The readiness wait as started by the route. -/
def waitPodReady (obs : Nat → Option Int) : Bool :=
  waitReadyFrom obs 0 0

/-- Cold-start phase of the execution route: the replicas patch followed by
the readiness wait; on expiry the route answers runtime_timeout at HTTP 504. -/
def invokeReadyPhase (deploymentName : String) (replicas : Option Int)
    (obs : Nat → Option Int) : List K8sAction × Option (ErrBody × Nat) :=
  (coldStartPatchActions deploymentName replicas,
    if waitPodReady obs then none
    else
      some
        (createErrorResponse "runtime_timeout"
          "Runtime failed to become ready in time" 500, 504))

/-! ## src/maintenance/loop.ts: reaper cycle (C3, C10) -/

/-- Default inactivity threshold in milliseconds (300 s). -/
def defaultInactiveThresholdMs : Int := 300000

/-- Per-Deployment data the reaper reads from a listed item. -/
structure DepInfo where
  name : Option String
  runtimeIdLabel : Option String
  lastExecAnn : Option String
  replicas : Option Int
deriving DecidableEq

/-- last-execution-time as computed by the loop: a falsy (absent or empty)
annotation yields 0, otherwise parseInt (none models NaN). -/
def lastExecMs (d : DepInfo) : Option Int :=
  match d.lastExecAnn with
  | none => some 0
  | some s => if s = "" then some 0 else jsParseInt10 s

/-- Whether one listed Deployment is scaled down in a held cycle, mirroring
the guards of the maintenance loop body (runtimeId and name must be truthy,
replicas must be exactly 1, and the NaN comparison is false). -/
def reapEligible (nowMs thresholdMs : Int) (d : DepInfo) : Bool :=
  match d.runtimeIdLabel, d.name with
  | some rid, some nm =>
    if rid = "" then false
    else if nm = "" then false
    else if d.replicas = some 1 then
      match lastExecMs d with
      | some l => decide (nowMs - l > thresholdMs)
      | none => false
    else false
  | _, _ => false

/-- Names of the Deployments patched to replicas 0 in one held reaper cycle
(Date.now() is modelled as the single instant nowMs; patches are assumed to
succeed, so the iteration visits every listed item). -/
def reapCycle (nowMs thresholdMs : Int) (deps : List DepInfo) : List String :=
  (deps.filter (reapEligible nowMs thresholdMs)).map (fun d => d.name.getD "")

/-- Well-formedness of a listed runtime Deployment: executor-created runtime
Deployments always carry a nonempty name and runtime-id label
(createRuntimeDeploymentDefinition sets both) and their last-execution-time
annotation, written as Date.now().toString(), always parses. -/
def depWellFormed (d : DepInfo) : Bool :=
  (match d.name with
    | some nm => nm ≠ ""
    | none => false) &&
  (match d.runtimeIdLabel with
    | some rid => rid ≠ ""
    | none => false) &&
  (match d.lastExecAnn with
    | none => true
    | some s => s = "" || (jsParseInt10 s).isSome)

/-- The claim-side scale-down predicate: replicas is 1 and the last
execution time (0 when absent) is older than the threshold. -/
def reapClaimEligible (nowMs thresholdMs : Int) (d : DepInfo) : Bool :=
  d.replicas = some 1 && decide (nowMs - (lastExecMs d).getD 0 > thresholdMs)

/-! ## src/utils/runtime.ts: checkPodListening (C5) -/

/-- Per-attempt abort deadline (setTimeout(() => controller.abort(), 2000)). -/
def perAttemptTimeoutMs : Nat := 2000

/-- Retry delay between failed attempts (delay of 500 ms). -/
def listenPollIntervalMs : Nat := 500

/-- Polling loop of checkPodListening: attempt n is some statusCode when the
n-th HTTP GET received a TCP-level response within the 2 s abort deadline and
none when it failed or was aborted; dur n is the time the n-th attempt took
before failing, clamped by the abort deadline. Any response returns true
immediately; a failure waits 500 ms and retries while the elapsed time is
below the window. -/
def checkListeningFrom (attempt : Nat → Option Nat) (dur : Nat → Nat)
    (timeoutMs : Nat) (elapsed i : Nat) : Bool :=
  if elapsed < timeoutMs then
    match attempt i with
    | some _ => true
    | none =>
      checkListeningFrom attempt dur timeoutMs
        (elapsed + (min (dur i) perAttemptTimeoutMs + listenPollIntervalMs)) (i + 1)
  else false
termination_by timeoutMs - elapsed
decreasing_by
  simp [perAttemptTimeoutMs, listenPollIntervalMs]
  omega

/-- Model of checkPodListening(podIP, timeout) with the window given in
milliseconds. -/
def checkPodListening (attempt : Nat → Option Nat) (dur : Nat → Nat)
    (timeoutMs : Nat) : Bool :=
  checkListeningFrom attempt dur timeoutMs 0 0

/-- Time consumed by the i-th failed attempt plus the retry delay. -/
def listenStep (dur : Nat → Nat) (i : Nat) : Nat :=
  min (dur i) perAttemptTimeoutMs + listenPollIntervalMs

/-- Elapsed time before the n-th attempt counted from attempt i starts,
assuming all earlier attempts failed. -/
def listenLeadFrom (dur : Nat → Nat) (i : Nat) : Nat → Nat
  | 0 => 0
  | n + 1 => listenStep dur i + listenLeadFrom dur (i + 1) n

/-! ## src/routes/runtimes.ts: surfaced response headers (C6) -/

/-- Value stored for one surfaced header name: a plain string or the ordered
list a repeated name was promoted to. -/
inductive HVal
  | single (v : String)
  | vlist (vs : List String)
deriving DecidableEq

/-- The responseHeaders object: an insertion-ordered association list. -/
abbrev HMap := List (String × HVal)

/-- Property read on the responseHeaders object. -/
def lookupH (m : HMap) (k : String) : Option HVal :=
  (m.find? (fun p => p.1 == k)).map Prod.snd

/-- Property write for an existing key (keeps its insertion position). -/
def updateH (m : HMap) (k : String) (v : HVal) : HMap :=
  m.map (fun p => if p.1 == k then (k, v) else p)

/-- One step of the headers.forEach body: lowercase the name, drop internal
x-open-runtimes- headers, and otherwise store the value, promoting a repeat
to an ordered list; note the truthiness test, under which a stored empty
string is overwritten rather than promoted. -/
def addRespHeader (m : HMap) (kv : String × String) : HMap :=
  let lk := jsToLower kv.1
  if jsStartsWith lk "x-open-runtimes-" then m
  else
    match lookupH m lk with
    | some (HVal.single s) =>
      if s = "" then updateH m lk (HVal.single kv.2)
      else updateH m lk (HVal.vlist [s, kv.2])
    | some (HVal.vlist vs) => updateH m lk (HVal.vlist (vs ++ [kv.2]))
    | none => m ++ [(lk, HVal.single kv.2)]

/-- Model of the response-header collection loop over the pairs delivered by
executionResponse.headers.forEach, in delivery order. -/
def processHeaders (hs : List (String × String)) : HMap :=
  hs.foldl addRespHeader []

/-- Backwards-compatibility collapse of one value:
value[value.length - 1] || the empty string. -/
def collapseVal : HVal → HVal
  | HVal.single s => HVal.single s
  | HVal.vlist vs => HVal.single (vs.getLast?.getD "")

/-- Headers surfaced to the caller: when the x-executor-response-format
request header (defaulted to 0.10.0) lexicographically precedes 0.11.0,
list values are collapsed to their last element. -/
def surfaceHeaders (respFormat : Option String) (m : HMap) : HMap :=
  let fmt := respFormat.getD "0.10.0"
  if jsStrLt fmt "0.11.0" then m.map (fun p => (p.1, collapseVal p.2)) else m

/-- The sequence of values delivered for one lowercased header name. -/
def valuesFor (hs : List (String × String)) (k : String) : List String :=
  (hs.filter (fun p => jsToLower p.1 == k)).map Prod.snd

/-- Replay of the per-name storage state machine from a given stored state
over a sequence of delivered values. -/
def squashStep (st : Option HVal) : List String → Option HVal
  | [] => st
  | v :: vs =>
    squashStep
      (some
        (match st with
        | none => HVal.single v
        | some (HVal.single s) =>
          if s = "" then HVal.single v else HVal.vlist [s, v]
        | some (HVal.vlist l) => HVal.vlist (l ++ [v])))
      vs

/-- Amended-claim characterisation of the stored value for one name: the
ordered list of delivered values from the first nonempty one on (a stored
empty string is overwritten by the next occurrence); a single surviving value
stays a plain string. -/
def squashSpec (vs : List String) : Option HVal :=
  match vs.dropWhile (fun v => v == "") with
  | [] => if vs.isEmpty then none else some (HVal.single "")
  | [w] => some (HVal.single w)
  | w :: ws => some (HVal.vlist (w :: ws))

/-! ## src/utils/logs.ts: parseTiming (C7) -/

/-- One decoded timing entry: the rendered timestamp and the signed length
(none models a NaN parse of the second field). -/
structure TimingPart where
  timestamp : String
  length : Option Int
deriving DecidableEq

/-- Decoding of one non-blank timing row: split on single spaces keeping the
first two fields, parse the seconds field (a NaN seconds value makes
new Date(NaN).toISOString() throw, modelled as none), convert to microseconds
with Math.ceil, add to the start instant with millisecond truncation, and
render with the +00:00 offset; the length field falls back to "0" when
absent or empty. -/
def timingLine (datetimeMs : Int) (row : String) : Option TimingPart :=
  let fields := jsSplit row ' '
  let timingStr := fields.headD ""
  let lengthStr := fields.get? 1
  match jsParseFloat timingStr with
  | none => none
  | some q =>
    let micros : Int := intCeilDiv (q.1 * 1000000) q.2
    let tsMs : Int := intTruncDiv (datetimeMs * 1000 + micros) 1000
    some
      { timestamp := jsReplaceFirst (toISOString tsMs) "Z" "+00:00"
        length :=
          jsParseInt10
            (match lengthStr with
            | none => "0"
            | some s => if s = "" then "0" else s) }

/-- Row loop of parseTiming: blank rows are skipped, any throwing row aborts
the whole call. -/
def parseTimingRows (datetimeMs : Int) : List String → Option (List TimingPart)
  | [] => some []
  | row :: rest =>
    if jsTrim row = "" then parseTimingRows datetimeMs rest
    else
      match timingLine datetimeMs row with
      | none => none
      | some p =>
        match parseTimingRows datetimeMs rest with
        | none => none
        | some ps => some (p :: ps)

/-- Model of parseTiming(timing, startDateTime?): an all-whitespace input
yields the empty list; the start instant defaults to the current time
(nowMs). -/
def parseTiming (timing : String) (startDateTime : Option Int) (nowMs : Int) :
    Option (List TimingPart) :=
  if jsTrim timing = "" then some []
  else parseTimingRows (startDateTime.getD nowMs) (jsSplit timing '\n')

/-- Claim-side shape of parseTiming: one decoded entry per non-blank line. -/
def parseTimingSpec (timing : String) (startDateTime : Option Int)
    (nowMs : Int) : Option (List TimingPart) :=
  ((jsSplit timing '\n').filter (fun r => jsTrim r ≠ "")).mapM
    (timingLine (startDateTime.getD nowMs))

/-! ## src/routes/runtimes.ts: v5 execution log extraction (C8) -/

/-- A JavaScript string as its sequence of UTF-16 code units: the unit that
String.prototype.length and slice measure. readFileFromPod accumulates the
UTF-8-decoded exec output into such a string. -/
abbrev JsStr := List Nat

/-- Truncation threshold of the execution log reader. -/
def MAX_LOG_SIZE : Nat := 1048576

/-- Notice appended to a truncated logs file ((MAX_LOG_SIZE / 1048576)
rendered by toFixed(2)). -/
def logTruncMsg : String := "\nLog file has been truncated to 1.00MB."

/-- Notice appended to a truncated errors file. -/
def errorTruncMsg : String := "\nError file has been truncated to 1.00MB."

/-- Code units of the logs notice (ASCII, one unit per character). -/
def logNoticeUnits : JsStr := logTruncMsg.data.map Char.toNat

/-- Code units of the errors notice. -/
def errorNoticeUnits : JsStr := errorTruncMsg.data.map Char.toNat

/-- Truncation applied to one successfully read file content:
logContent.length and slice(0, MAX_LOG_SIZE) both count UTF-16 code units,
and += appends the notice. -/
def truncateContent (content notice : JsStr) : JsStr :=
  if content.length > MAX_LOG_SIZE then content.take MAX_LOG_SIZE ++ notice
  else content

/-- One file read with its surrounding try/catch: a failed read (missing or
unreadable file, modelled as none) is ignored and leaves the empty string. -/
def readLogResult (readResult : Option JsStr) (notice : JsStr) : JsStr :=
  match readResult with
  | none => []
  | some content => truncateContent content notice

/-- The logs/errors pair surfaced by the execution route: extraction runs
only for v5 with a truthy log id and logging enabled, and only when the pod
has a name. -/
def extractExecutionLogs (version logId : String) (logging : Bool)
    (podName : Option String) (logRead errRead : Option JsStr) :
    JsStr × JsStr :=
  if version = "v5" && logId ≠ "" && logging then
    match podName with
    | some _ =>
      (readLogResult logRead logNoticeUnits, readLogResult errRead errorNoticeUnits)
    | none => ([], [])
  else ([], [])

/-- Amended-claim truncation: contents of at most MAX_LOG_SIZE code units
are surfaced unmodified, larger ones as exactly their first MAX_LOG_SIZE
code units plus the notice. -/
def truncateSpec (content notice : JsStr) : JsStr :=
  if content.length ≤ MAX_LOG_SIZE then content
  else content.take MAX_LOG_SIZE ++ notice

/-- UTF-8 bytes of one BMP code unit (one, two, or three bytes; surrogate
halves do not occur in the contents considered here). -/
def utf8EncodeUnit (u : Nat) : List Nat :=
  if u < 128 then [u]
  else if u < 2048 then [192 + u / 64, 128 + u % 64]
  else [224 + u / 4096, 128 + u / 64 % 64, 128 + u % 64]

/-- UTF-8 byte sequence of a JavaScript string: what the file on disk and
the claim's byte counts refer to. -/
def utf8Encode (s : JsStr) : List Nat :=
  (s.map utf8EncodeUnit).flatten

/-- Modelled from the claim's words: the surfaced bytes when truncation
triggers exactly at MAX_LOG_SIZE bytes — at most that many bytes pass
unmodified, larger files surface exactly their first MAX_LOG_SIZE bytes
followed by the notice. -/
def claimSurfacedBytes (content notice : JsStr) : List Nat :=
  if (utf8Encode content).length ≤ MAX_LOG_SIZE then utf8Encode content
  else (utf8Encode content).take MAX_LOG_SIZE ++ utf8Encode notice

/-- A logs file of 600,000 copies of U+00E4: 600,000 UTF-16 code units but
1,200,000 UTF-8 bytes. -/
def umlautContent : JsStr := List.replicate 600000 228

/-! ## src/routes/runtimes.ts: list pagination limit (C9) -/

/-- Default page limit of GET /v1/runtimes. -/
def defaultLimit : Int := 25

/-- Maximum page limit of GET /v1/runtimes. -/
def maxLimit : Int := 100

/-- Effective limit computed from the limit query parameter: a falsy or
unparsable or non-positive parameter keeps the default, otherwise the parsed
value capped by Math.min at the maximum. -/
def effectiveLimit (limitParam : Option String) : Int :=
  match limitParam with
  | none => defaultLimit
  | some s =>
    if s = "" then defaultLimit
    else
      match jsParseInt10 s with
      | none => defaultLimit
      | some v => if 0 < v then min v maxLimit else defaultLimit

/-- Value of the X-PAGINATION-LIMIT response header (limit.toString()). -/
def paginationLimitHdr (limitParam : Option String) : String :=
  toString (effectiveLimit limitParam)

/-- What the claim says the effective limit is: the parsed parameter clamped
into the closed interval from 1 to 100, defaulting to 25 when absent. -/
def claimClampLimit (limitParam : Option String) : Int :=
  match limitParam with
  | none => defaultLimit
  | some s =>
    match jsParseInt10 s with
    | none => defaultLimit
    | some v => max 1 (min v maxLimit)

/-! ## src/utils/pod-exec.ts: tailFileInPod cancel handle (C4) -/

/-- State of the exec transport backing one tail -F stream. -/
structure ExecTransport where
  connectionOpen : Bool
deriving DecidableEq

/-- The cleanup function returned by tailFileInPod: its body is empty (the
source comments that the k8s exec API offers no direct way to terminate the
process), so it leaves the transport untouched. -/
def tailCancelCleanup (t : ExecTransport) : ExecTransport :=
  t

/-- Whether a stdout chunk arriving after the cancel function returned is
still delivered to onData: the stdout stream forwards every chunk while the
transport stays open. -/
def chunkDeliveredAfterCancel (t : ExecTransport) : Bool :=
  (tailCancelCleanup t).connectionOpen

/-! ## Helper lemmas -/

theorem createPrecheck_exists_eq (runtimeId image : String)
    (statusRead : Option (List (String × String)))
    (hid : runtimeId ≠ "") (him : image ≠ "") :
    createPrecheck runtimeId image true statusRead =
      (match getRuntimeStatus statusRead with
      | some st =>
        if st.status = "pending" then
          CreateResult.errorResp
            (createErrorResponse "runtime_conflict"
              "A runtime with the same ID is already being created. Attempt an execution soon."
              500) 409
        else
          CreateResult.errorResp
            (createErrorResponse "runtime_conflict" "Runtime already exists" 500) 409
      | none =>
        CreateResult.errorResp
          (createErrorResponse "runtime_conflict" "Runtime already exists" 500) 409) := by
  unfold createPrecheck
  simp [hid, him]

theorem waitReadyFrom_iff_aux (obs : Nat → Option Int) :
    ∀ (k e i : Nat), 60000 - e ≤ k →
      (waitReadyFrom obs e i = true ↔
        ∃ n, e + 500 * n < 60000 ∧ obs (i + n) = some 1) := by
  intro k
  induction k with
  | zero =>
    intro e i hk
    rw [waitReadyFrom]
    simp only [readyTimeoutMs, readyPollIntervalMs]
    rw [if_neg (by omega)]
    constructor
    · intro h; exact absurd h (by simp)
    · rintro ⟨n, hn, -⟩
      omega
  | succ k ih =>
    intro e i hk
    rw [waitReadyFrom]
    simp only [readyTimeoutMs, readyPollIntervalMs]
    by_cases he : e < 60000
    · rw [if_pos he]
      by_cases hobs : obs i = some 1
      · rw [if_pos hobs]
        constructor
        · intro _
          exact ⟨0, by omega, by simpa using hobs⟩
        · intro _; rfl
      · rw [if_neg hobs]
        rw [ih (e + 500) (i + 1) (by omega)]
        constructor
        · rintro ⟨n, hn, ho⟩
          refine ⟨n + 1, by omega, ?_⟩
          have hidx : i + (n + 1) = i + 1 + n := by omega
          rw [hidx]; exact ho
        · rintro ⟨n, hn, ho⟩
          cases n with
          | zero =>
            rw [Nat.add_zero] at ho
            exact absurd ho hobs
          | succ m =>
            refine ⟨m, by omega, ?_⟩
            have hidx : i + 1 + m = i + (m + 1) := by omega
            rw [hidx]; exact ho
    · rw [if_neg he]
      constructor
      · intro h; exact absurd h (by simp)
      · rintro ⟨n, hn, -⟩
        omega

theorem checkListeningFrom_iff_aux (attempt : Nat → Option Nat) (dur : Nat → Nat)
    (timeoutMs : Nat) :
    ∀ (k e i : Nat), timeoutMs - e ≤ k →
      (checkListeningFrom attempt dur timeoutMs e i = true ↔
        ∃ n, (∀ j, j < n → attempt (i + j) = none) ∧
          e + listenLeadFrom dur i n < timeoutMs ∧
          (attempt (i + n)).isSome = true) := by
  intro k
  induction k with
  | zero =>
    intro e i hk
    rw [checkListeningFrom]
    rw [if_neg (by omega)]
    constructor
    · intro h; exact absurd h (by simp)
    · rintro ⟨n, -, hn, -⟩
      have := Nat.le_add_right e (listenLeadFrom dur i n)
      omega
  | succ k ih =>
    intro e i hk
    rw [checkListeningFrom]
    by_cases he : e < timeoutMs
    · rw [if_pos he]
      cases hobs : attempt i with
      | some c =>
        constructor
        · intro _
          refine ⟨0, fun j hj => absurd hj (by omega), by simpa [listenLeadFrom] using he, ?_⟩
          rw [Nat.add_zero, hobs]; rfl
        · intro _; rfl
      | none =>
        have hstep : 0 < listenStep dur i := by
          have := Nat.le_add_left listenPollIntervalMs (min (dur i) perAttemptTimeoutMs)
          simp only [listenStep, listenPollIntervalMs] at *
          omega
        rw [ih (e + (min (dur i) perAttemptTimeoutMs + listenPollIntervalMs)) (i + 1)
          (by simp only [listenStep, listenPollIntervalMs, perAttemptTimeoutMs] at *; omega)]
        constructor
        · rintro ⟨n, hfail, hn, ho⟩
          refine ⟨n + 1, ?_, ?_, ?_⟩
          · intro j hj
            cases j with
            | zero => rw [Nat.add_zero]; exact hobs
            | succ m =>
              have hidx : i + (m + 1) = i + 1 + m := by omega
              rw [hidx]; exact hfail m (by omega)
          · have hlead : listenLeadFrom dur i (n + 1) =
                listenStep dur i + listenLeadFrom dur (i + 1) n := rfl
            simp only [hlead, listenStep]
            omega
          · have hidx : i + (n + 1) = i + 1 + n := by omega
            rw [hidx]; exact ho
        · rintro ⟨n, hfail, hn, ho⟩
          cases n with
          | zero =>
            rw [Nat.add_zero, hobs] at ho
            exact absurd ho (by simp)
          | succ m =>
            refine ⟨m, ?_, ?_, ?_⟩
            · intro j hj
              have hidx : i + 1 + j = i + (j + 1) := by omega
              rw [hidx]; exact hfail (j + 1) (by omega)
            · have hlead : listenLeadFrom dur i (m + 1) =
                  listenStep dur i + listenLeadFrom dur (i + 1) m := rfl
              rw [hlead] at hn
              simp only [listenStep] at hn
              omega
            · have hidx : i + 1 + m = i + (m + 1) := by omega
              rw [hidx]; exact ho
    · rw [if_neg he]
      constructor
      · intro h; exact absurd h (by simp)
      · rintro ⟨n, -, hn, -⟩
        have := Nat.le_add_right e (listenLeadFrom dur i n)
        omega

theorem digitChar_ne_Z (n : Nat) : digitChar n ≠ 'Z' := by
  unfold digitChar
  split <;> decide

theorem mem_natDigitsAux_ne_Z : ∀ (fuel n : Nat), ∀ c ∈ natDigitsAux fuel n, c ≠ 'Z' := by
  intro fuel
  induction fuel with
  | zero =>
    intro n c hc
    simp [natDigitsAux] at hc
  | succ fuel ih =>
    intro n c hc
    unfold natDigitsAux at hc
    split at hc
    · rw [List.mem_singleton] at hc
      subst hc
      exact digitChar_ne_Z _
    · rcases List.mem_append.mp hc with h | h
      · exact ih (n / 10) c h
      · rw [List.mem_singleton] at h
        subst h
        exact digitChar_ne_Z _

theorem mem_natDigits_ne_Z (n : Nat) : ∀ c ∈ natDigits n, c ≠ 'Z' :=
  mem_natDigitsAux_ne_Z (n + 1) n

theorem mem_padDigits_ne_Z (n w : Nat) : ∀ c ∈ padDigits n w, c ≠ 'Z' := by
  intro c hc
  rcases List.mem_append.mp hc with h | h
  · rw [List.eq_of_mem_replicate h]
    decide
  · exact mem_natDigits_ne_Z n c h

theorem mem_yearChars_ne_Z (y : Int) : ∀ c ∈ yearChars y, c ≠ 'Z' := by
  intro c hc
  unfold yearChars at hc
  split at hc
  · exact mem_padDigits_ne_Z _ _ c hc
  · split at hc
    · rcases List.mem_cons.mp hc with h | h
      · rw [h]; decide
      · exact mem_padDigits_ne_Z _ _ c h
    · rcases List.mem_cons.mp hc with h | h
      · rw [h]; decide
      · exact mem_padDigits_ne_Z _ _ c h

theorem mem_sep_pad_ne_Z (ch : Char) (hch : ch ≠ 'Z') (n w : Nat) :
    ∀ c ∈ ch :: padDigits n w, c ≠ 'Z' := by
  intro c hc
  rcases List.mem_cons.mp hc with h | h
  · rw [h]; exact hch
  · exact mem_padDigits_ne_Z n w c h

theorem mem_isoCoreChars_ne_Z (ms : Int) : ∀ c ∈ isoCoreChars ms, c ≠ 'Z' := by
  intro c hc
  unfold isoCoreChars at hc
  rcases List.mem_append.mp hc with hc | h
  case inr => exact mem_sep_pad_ne_Z '.' (by decide) _ _ c h
  rcases List.mem_append.mp hc with hc | h
  case inr => exact mem_sep_pad_ne_Z ':' (by decide) _ _ c h
  rcases List.mem_append.mp hc with hc | h
  case inr => exact mem_sep_pad_ne_Z ':' (by decide) _ _ c h
  rcases List.mem_append.mp hc with hc | h
  case inr => exact mem_sep_pad_ne_Z 'T' (by decide) _ _ c h
  rcases List.mem_append.mp hc with hc | h
  case inr => exact mem_sep_pad_ne_Z '-' (by decide) _ _ c h
  rcases List.mem_append.mp hc with hc | h
  case inr => exact mem_sep_pad_ne_Z '-' (by decide) _ _ c h
  exact mem_yearChars_ne_Z _ c hc

theorem replaceFirst_no_hit (rep : List Char) (x : List Char)
    (hx : ∀ c ∈ x, c ≠ 'Z') :
    replaceFirstAux ['Z'] rep (x ++ ['Z']) = x ++ rep := by
  induction x with
  | nil =>
    show replaceFirstAux ['Z'] rep ['Z'] = rep
    unfold replaceFirstAux
    rw [if_pos (by decide)]
    simp
  | cons c rest ih =>
    have hcZ : c ≠ 'Z' := hx c (List.mem_cons_self c rest)
    rw [List.cons_append]
    unfold replaceFirstAux
    rw [if_neg (by
      simp only [List.isPrefixOf, Bool.and_eq_true, beq_iff_eq]
      intro hcon
      exact hcZ hcon.1.symm)]
    rw [ih (fun d hd => hx d (List.mem_cons_of_mem c hd))]
    simp

theorem iso_replace_Z (ms : Int) :
    jsReplaceFirst (toISOString ms) "Z" "+00:00" = isoCore ms ++ "+00:00" := by
  unfold jsReplaceFirst toISOString isoCore
  have h := replaceFirst_no_hit ("+00:00".data) (isoCoreChars ms)
    (mem_isoCoreChars_ne_Z ms)
  show String.mk (replaceFirstAux ['Z'] "+00:00".data (isoCoreChars ms ++ ['Z'])) = _
  rw [h]
  rfl

theorem parseTimingRows_eq_mapM (d : Int) : ∀ rows : List String,
    parseTimingRows d rows =
      (rows.filter (fun r => jsTrim r ≠ "")).mapM (timingLine d) := by
  intro rows
  induction rows with
  | nil => rfl
  | cons r t ih =>
    unfold parseTimingRows
    rw [List.filter_cons]
    by_cases hb : jsTrim r = ""
    · rw [if_pos hb]
      rw [show (decide (jsTrim r ≠ "")) = false by simp [hb]]
      simp only [Bool.false_eq_true, if_false]
      exact ih
    · rw [if_neg hb]
      rw [show (decide (jsTrim r ≠ "")) = true by simp [hb]]
      simp only [if_true]
      rw [List.mapM_cons, ih]
      cases timingLine d r with
      | none => rfl
      | some p =>
        cases (t.filter (fun r => jsTrim r ≠ "")).mapM (timingLine d) with
        | none => rfl
        | some ps => rfl

theorem lookupH_cons (p : String × HVal) (m : HMap) (k : String) :
    lookupH (p :: m) k = if p.1 = k then some p.2 else lookupH m k := by
  unfold lookupH
  rw [List.find?_cons]
  by_cases h : p.1 = k
  · have hb : (p.1 == k) = true := beq_iff_eq.mpr h
    rw [hb, if_pos h]
    rfl
  · have hb : (p.1 == k) = false := beq_eq_false_iff_ne.mpr h
    rw [hb, if_neg h]

theorem lookupH_append_single (m : HMap) (k k2 : String) (v : HVal) :
    lookupH (m ++ [(k2, v)]) k =
      match lookupH m k with
      | some x => some x
      | none => if k2 = k then some v else none := by
  induction m with
  | nil =>
    rw [List.nil_append, lookupH_cons]
    rfl
  | cons p t ih =>
    rw [List.cons_append, lookupH_cons, lookupH_cons]
    by_cases h : p.1 = k
    · simp [h]
    · simp [h, ih]

theorem lookupH_append_ne (m : HMap) (k k2 : String) (v : HVal) (hne : k2 ≠ k) :
    lookupH (m ++ [(k2, v)]) k = lookupH m k := by
  rw [lookupH_append_single]
  cases h : lookupH m k with
  | some x => rfl
  | none => simp [hne]

theorem lookupH_updateH_self (m : HMap) (k : String) (v : HVal) :
    lookupH (updateH m k v) k =
      if (lookupH m k).isSome then some v else none := by
  induction m with
  | nil => rfl
  | cons p t ih =>
    unfold updateH at *
    simp only [List.map_cons]
    by_cases h : p.1 = k
    · have hb : (p.1 == k) = true := beq_iff_eq.mpr h
      rw [hb]
      simp only [if_true]
      rw [lookupH_cons, lookupH_cons]
      simp [h]
    · have hb : (p.1 == k) = false := beq_eq_false_iff_ne.mpr h
      rw [hb]
      simp only [Bool.false_eq_true, if_false]
      rw [lookupH_cons, lookupH_cons]
      rw [if_neg h, if_neg h, ih]

theorem lookupH_updateH_ne (m : HMap) (k k2 : String) (v : HVal) (hne : k2 ≠ k) :
    lookupH (updateH m k2 v) k = lookupH m k := by
  induction m with
  | nil => rfl
  | cons p t ih =>
    unfold updateH at *
    simp only [List.map_cons]
    by_cases h : p.1 = k2
    · have hb : (p.1 == k2) = true := beq_iff_eq.mpr h
      rw [hb]
      simp only [if_true]
      rw [lookupH_cons, lookupH_cons]
      rw [if_neg hne, if_neg (by rw [← h] at hne; exact fun hc => hne hc), ih]
    · have hb : (p.1 == k2) = false := beq_eq_false_iff_ne.mpr h
      rw [hb]
      simp only [Bool.false_eq_true, if_false]
      rw [lookupH_cons, lookupH_cons, ih]

theorem updateH_keys (m : HMap) (k : String) (v : HVal) :
    (updateH m k v).map Prod.fst = m.map Prod.fst := by
  induction m with
  | nil => rfl
  | cons p t ih =>
    unfold updateH at *
    simp only [List.map_cons]
    rw [ih]
    by_cases h : p.1 = k
    · have hb : (p.1 == k) = true := beq_iff_eq.mpr h
      rw [hb]
      simp [h]
    · have hb : (p.1 == k) = false := beq_eq_false_iff_ne.mpr h
      rw [hb]
      simp

theorem lookupH_isSome_key_mem (m : HMap) (k : String)
    (h : (lookupH m k).isSome = true) : k ∈ m.map Prod.fst := by
  induction m with
  | nil => simp [lookupH] at h
  | cons p t ih =>
    rw [lookupH_cons] at h
    by_cases hp : p.1 = k
    · simp [hp]
    · rw [if_neg hp] at h
      simp [ih h]

theorem lookupH_addRespHeader_hit (acc : HMap) (p : String × String) (k : String)
    (hint : jsStartsWith (jsToLower p.1) "x-open-runtimes-" = false)
    (heq : jsToLower p.1 = k) :
    lookupH (addRespHeader acc p) k =
      some
        (match lookupH acc k with
        | none => HVal.single p.2
        | some (HVal.single s) =>
          if s = "" then HVal.single p.2 else HVal.vlist [s, p.2]
        | some (HVal.vlist l) => HVal.vlist (l ++ [p.2])) := by
  have hint2 : jsStartsWith k "x-open-runtimes-" = false := by
    rw [← heq]; exact hint
  simp only [addRespHeader, heq, hint2, Bool.false_eq_true, if_false]
  cases hacc : lookupH acc k with
  | none =>
    dsimp only
    rw [lookupH_append_single, hacc]
    simp
  | some hv =>
    cases hv with
    | single s =>
      dsimp only
      by_cases hse : s = ""
      · rw [if_pos hse, lookupH_updateH_self, hacc]
        simp [hse]
      · rw [if_neg hse, lookupH_updateH_self, hacc]
        simp [hse]
    | vlist l =>
      dsimp only
      rw [lookupH_updateH_self, hacc]
      simp

theorem lookupH_addRespHeader_miss (acc : HMap) (p : String × String) (k : String)
    (hne : jsToLower p.1 ≠ k) :
    lookupH (addRespHeader acc p) k = lookupH acc k := by
  simp only [addRespHeader]
  by_cases hint : jsStartsWith (jsToLower p.1) "x-open-runtimes-" = true
  · rw [if_pos hint]
  · rw [if_neg hint]
    cases hacc : lookupH acc (jsToLower p.1) with
    | none =>
      dsimp only
      exact lookupH_append_ne acc k (jsToLower p.1) _ hne
    | some hv =>
      cases hv with
      | single s =>
        dsimp only
        by_cases hse : s = ""
        · rw [if_pos hse]
          exact lookupH_updateH_ne acc k (jsToLower p.1) _ hne
        · rw [if_neg hse]
          exact lookupH_updateH_ne acc k (jsToLower p.1) _ hne
      | vlist l =>
        dsimp only
        exact lookupH_updateH_ne acc k (jsToLower p.1) _ hne

theorem foldl_addRespHeader_lookup (k : String)
    (hk : jsStartsWith k "x-open-runtimes-" = false) :
    ∀ (hs : List (String × String)) (acc : HMap),
      lookupH (hs.foldl addRespHeader acc) k =
        squashStep (lookupH acc k) (valuesFor hs k) := by
  intro hs
  induction hs with
  | nil => intro acc; rfl
  | cons p t ih =>
    intro acc
    rw [List.foldl_cons, ih]
    by_cases heq : jsToLower p.1 = k
    · have hint : jsStartsWith (jsToLower p.1) "x-open-runtimes-" = false := by
        rw [heq]; exact hk
      have h2 : valuesFor (p :: t) k = p.2 :: valuesFor t k := by
        unfold valuesFor
        rw [List.filter_cons]
        simp [heq]
      rw [h2, lookupH_addRespHeader_hit acc p k hint heq]
      rfl
    · have h2 : valuesFor (p :: t) k = valuesFor t k := by
        unfold valuesFor
        rw [List.filter_cons]
        have : (jsToLower p.1 == k) = false := beq_eq_false_iff_ne.mpr heq
        simp [this]
      rw [h2, lookupH_addRespHeader_miss acc p k heq]

theorem squashStep_vlist (vs : List String) :
    ∀ l : List String,
      squashStep (some (HVal.vlist l)) vs = some (HVal.vlist (l ++ vs)) := by
  induction vs with
  | nil => intro l; simp [squashStep]
  | cons v t ih =>
    intro l
    show squashStep (some (HVal.vlist (l ++ [v]))) t = some (HVal.vlist (l ++ v :: t))
    rw [ih (l ++ [v])]
    simp

theorem squashStep_single_ne (w : String) (hw : w ≠ "") (vs : List String) :
    squashStep (some (HVal.single w)) vs =
      (match vs with
      | [] => some (HVal.single w)
      | v :: t => some (HVal.vlist (w :: v :: t))) := by
  cases vs with
  | nil => rfl
  | cons v t =>
    show squashStep (some (if w = "" then HVal.single v else HVal.vlist [w, v])) t = _
    rw [if_neg hw, squashStep_vlist]
    rfl

theorem squashSpec_cons_empty (w : String) (ts : List String) :
    squashSpec ("" :: w :: ts) = squashSpec (w :: ts) := by
  unfold squashSpec
  rw [show List.dropWhile (fun v => v == "") ("" :: w :: ts) =
      List.dropWhile (fun v => v == "") (w :: ts) from by
    rw [List.dropWhile_cons]
    simp]
  cases hdw : List.dropWhile (fun v => v == "") (w :: ts) with
  | nil => simp
  | cons x xs => rfl

theorem squashStep_none_eq_spec (vs : List String) :
    squashStep none vs = squashSpec vs := by
  induction vs with
  | nil => rfl
  | cons v t ih =>
    by_cases hv : v = ""
    · subst hv
      cases t with
      | nil => rfl
      | cons w ts =>
        have h1 : squashStep none ("" :: w :: ts) = squashStep none (w :: ts) := by
          show squashStep (some (HVal.single "")) (w :: ts) = _
          show squashStep (some (if "" = "" then HVal.single w else HVal.vlist ["", w])) ts = _
          rw [if_pos rfl]
          rfl
        rw [h1, ih, squashSpec_cons_empty]
    · show squashStep (some (HVal.single v)) t = _
      rw [squashStep_single_ne v hv t]
      unfold squashSpec
      rw [show List.dropWhile (fun x => x == "") (v :: t) = v :: t from by
        rw [List.dropWhile_cons]
        simp [hv]]
      cases t with
      | nil => rfl
      | cons x xs => rfl

theorem processHeaders_keys (hs : List (String × String)) :
    ∀ (acc : HMap) p, p ∈ hs.foldl addRespHeader acc →
      p.1 ∈ acc.map Prod.fst ∨
      ∃ kv, kv ∈ hs ∧ p.1 = jsToLower kv.1 ∧
        jsStartsWith (jsToLower kv.1) "x-open-runtimes-" = false := by
  induction hs with
  | nil =>
    intro acc p hp
    exact Or.inl (List.mem_map_of_mem Prod.fst hp)
  | cons q t ih =>
    intro acc p hp
    rw [List.foldl_cons] at hp
    rcases ih (addRespHeader acc q) p hp with h | h
    · simp only [addRespHeader] at h
      by_cases hint : jsStartsWith (jsToLower q.1) "x-open-runtimes-" = true
      · rw [if_pos hint] at h
        exact Or.inl h
      · rw [if_neg hint] at h
        have hint2 : jsStartsWith (jsToLower q.1) "x-open-runtimes-" = false := by
          simpa using hint
        cases hacc : lookupH acc (jsToLower q.1) with
        | none =>
          rw [hacc] at h
          dsimp only at h
          rw [List.map_append] at h
          rcases List.mem_append.mp h with h2 | h2
          · exact Or.inl h2
          · simp only [List.map_cons, List.map_nil, List.mem_singleton] at h2
            exact Or.inr ⟨q, List.mem_cons_self q t, h2, hint2⟩
        | some hv =>
          rw [hacc] at h
          cases hv with
          | single s =>
            dsimp only at h
            by_cases hse : s = ""
            · rw [if_pos hse, updateH_keys] at h
              exact Or.inl h
            · rw [if_neg hse, updateH_keys] at h
              exact Or.inl h
          | vlist l =>
            dsimp only at h
            rw [updateH_keys] at h
            exact Or.inl h
    · obtain ⟨kv, hkv, rest⟩ := h
      exact Or.inr ⟨kv, List.mem_cons_of_mem q hkv, rest⟩

theorem lookupH_map_collapse (m : HMap) (k : String) :
    lookupH (m.map (fun p => (p.1, collapseVal p.2))) k =
      (lookupH m k).map collapseVal := by
  induction m with
  | nil => rfl
  | cons p t ih =>
    simp only [List.map_cons]
    rw [lookupH_cons, lookupH_cons]
    by_cases h : p.1 = k
    · simp [h]
    · simp [h, ih]

theorem reapEligible_eq_claim (nowMs thresholdMs : Int) (d : DepInfo)
    (hw : depWellFormed d = true) :
    reapEligible nowMs thresholdMs d = reapClaimEligible nowMs thresholdMs d := by
  obtain ⟨name, rid, lastAnn, repl⟩ := d
  unfold depWellFormed at hw
  cases name with
  | none => simp at hw
  | some nm =>
    cases rid with
    | none => simp at hw
    | some r =>
      simp only [Bool.and_eq_true, decide_eq_true_eq] at hw
      obtain ⟨⟨hnm, hr⟩, hparse⟩ := hw
      unfold reapEligible reapClaimEligible
      dsimp only
      rw [if_neg hr, if_neg hnm]
      by_cases hrep : repl = some 1
      · rw [if_pos (by simpa using hrep)]
        have hsome : ∃ l, lastExecMs ⟨some nm, some r, lastAnn, repl⟩ = some l := by
          unfold lastExecMs
          dsimp only
          cases lastAnn with
          | none => exact ⟨0, rfl⟩
          | some s =>
            dsimp only
            by_cases hs : s = ""
            · rw [if_pos hs]; exact ⟨0, rfl⟩
            · rw [if_neg hs]
              simp only [hs, false_or] at hparse
              obtain ⟨l, hl⟩ := Option.isSome_iff_exists.mp
                (by simpa using hparse)
              exact ⟨l, hl⟩
        obtain ⟨l, hl⟩ := hsome
        rw [hl]
        simp [hrep, hl]
      · rw [if_neg (by simpa using hrep)]
        simp [hrep]

/-! ## Claim theorems -/

/-- C1: a create request for an existing runtimeId (the runtimeExists read
succeeded) is answered 409 with error kind runtime_conflict, no mutating
cluster action is issued, and a pending status annotation selects the
distinct creation-in-progress message while any other nonempty status selects
the plain Runtime already exists message. -/
theorem create_duplicate_conflict (runtimeId image : String)
    (statusRead : Option (List (String × String)))
    (hid : runtimeId ≠ "") (him : image ≠ "") :
    (∃ b, createPrecheck runtimeId image true statusRead =
        CreateResult.errorResp b 409 ∧ b.type = "runtime_conflict") ∧
    (∀ acts, createRuntimeActions runtimeId image true statusRead acts = []) ∧
    (∀ anns, statusRead = some anns →
      annLookup anns "appwrite.io/status" = some "pending" →
      createPrecheck runtimeId image true statusRead =
        CreateResult.errorResp
          (createErrorResponse "runtime_conflict"
            "A runtime with the same ID is already being created. Attempt an execution soon."
            500) 409) ∧
    (∀ anns st, statusRead = some anns →
      annLookup anns "appwrite.io/status" = some st → st ≠ "pending" → st ≠ "" →
      createPrecheck runtimeId image true statusRead =
        CreateResult.errorResp
          (createErrorResponse "runtime_conflict" "Runtime already exists" 500) 409) := by
  have hmain := createPrecheck_exists_eq runtimeId image statusRead hid him
  refine ⟨?_, ?_, ?_, ?_⟩
  · rw [hmain]
    cases hst : getRuntimeStatus statusRead with
    | none => exact ⟨_, rfl, rfl⟩
    | some st =>
      by_cases hp : st.status = "pending"
      · exact ⟨createErrorResponse "runtime_conflict"
          "A runtime with the same ID is already being created. Attempt an execution soon."
          500, by simp [hp], rfl⟩
      · exact ⟨createErrorResponse "runtime_conflict" "Runtime already exists" 500,
          by simp [hp], rfl⟩
  · intro acts
    unfold createRuntimeActions
    rw [hmain]
    cases hst : getRuntimeStatus statusRead with
    | none => rfl
    | some st =>
      by_cases hp : st.status = "pending"
      · simp [hp]
      · simp [hp]
  · intro anns hanns hpend
    rw [hmain, hanns]
    simp [getRuntimeStatus, jsOrStr, hpend]
  · intro anns st hanns hst hne hne2
    rw [hmain, hanns]
    simp [getRuntimeStatus, jsOrStr, hst, hne, hne2]

/-- C1 witness: a concrete duplicate create with a pending runtime receives
the distinct 409 conflict, and one with status Up 3s the plain one. -/
theorem create_duplicate_conflict_witness :
    createPrecheck "r3" "img:v5" true (some [("appwrite.io/status", "pending")]) =
      CreateResult.errorResp
        (createErrorResponse "runtime_conflict"
          "A runtime with the same ID is already being created. Attempt an execution soon."
          500) 409 ∧
    createPrecheck "r3" "img:v5" true (some [("appwrite.io/status", "Up 3s")]) =
      CreateResult.errorResp
        (createErrorResponse "runtime_conflict" "Runtime already exists" 500) 409 ∧
    createRuntimeActions "r3" "img:v5" true (some [("appwrite.io/status", "Up 3s")])
      [K8sAction.createResources "r3"] = [] := by
  refine ⟨?_, ?_, ?_⟩
  · exact (create_duplicate_conflict "r3" "img:v5" _ (by decide) (by decide)).2.2.1
      _ rfl (by decide)
  · exact (create_duplicate_conflict "r3" "img:v5" _ (by decide) (by decide)).2.2.2
      _ "Up 3s" rfl (by decide) (by decide) (by decide)
  · exact (create_duplicate_conflict "r3" "img:v5" _ (by decide) (by decide)).2.1 _

/-- C4 (code bug): the cancel handle returned by tailFileInPod does not tear
anything down: its body is empty, the exec transport stays open, and a chunk
arriving after cancel returns is still delivered to the onData callback. -/
theorem tail_cancel_is_noop :
    (∀ t, tailCancelCleanup t = t) ∧
    chunkDeliveredAfterCancel { connectionOpen := true } = true :=
  ⟨fun _ => rfl, rfl⟩

/-- C7: parseTiming yields one decoded entry per non-blank line; each line
is single-space split, the timestamp is the start instant (defaulting to
now) advanced by ceil(seconds * 10^6) microseconds with millisecond
truncation and rendered ISO-8601 with a +00:00 offset in place of Z, the
length is the signed integer parsed from the second field (defaulting to
"0"); an all-whitespace input yields the empty list. IEEE-754 arithmetic
is idealised as exact fractions. -/
theorem parseTiming_decodes_per_line (timing : String)
    (startDateTime : Option Int) (nowMs : Int) :
    (jsTrim timing = "" → parseTiming timing startDateTime nowMs = some []) ∧
    (parseTiming timing none nowMs = parseTiming timing (some nowMs) nowMs) ∧
    (jsTrim timing ≠ "" →
      parseTiming timing startDateTime nowMs =
        parseTimingSpec timing startDateTime nowMs) ∧
    (∀ d row p, timingLine d row = some p →
      ∃ q : Int × Nat,
        jsParseFloat ((jsSplit row ' ').headD "") = some q ∧
        p.timestamp =
          isoCore (intTruncDiv (d * 1000 + intCeilDiv (q.1 * 1000000) q.2) 1000)
            ++ "+00:00" ∧
        p.length =
          jsParseInt10
            (match (jsSplit row ' ').get? 1 with
            | none => "0"
            | some s => if s = "" then "0" else s)) := by
  refine ⟨?_, rfl, ?_, ?_⟩
  · intro h
    unfold parseTiming
    rw [if_pos h]
  · intro h
    unfold parseTiming parseTimingSpec
    rw [if_neg h]
    exact parseTimingRows_eq_mapM _ _
  · intro d row p hp
    simp only [timingLine] at hp
    cases hq : jsParseFloat ((jsSplit row ' ').headD "") with
    | none =>
      rw [hq] at hp
      exact Option.noConfusion hp
    | some q =>
      rw [hq] at hp
      dsimp only at hp
      cases hp
      exact ⟨q, rfl, iso_replace_Z _, rfl⟩

/-- C7 witness: a timing file of two entries separated by a blank line
decodes against a concrete start instant into two rendered parts with the
+00:00 offset, signed lengths included. -/
theorem parseTiming_decodes_per_line_witness :
    parseTiming "0.5 10\n \n1.25 -3" (some 1700000000000) 0 =
      some [{ timestamp := "2023-11-14T22:13:20.500+00:00", length := some 10 },
            { timestamp := "2023-11-14T22:13:21.250+00:00", length := some (-3) }] := by
  rw [(parseTiming_decodes_per_line "0.5 10\n \n1.25 -3" (some 1700000000000) 0).2.2.1
    (by decide)]
  decide

/-- C8 counterexample: a readable logs file of 600,000 two-byte characters
is 1,200,000 UTF-8 bytes — well over the claimed 1,048,576-byte boundary —
yet the route surfaces it unmodified with no truncation notice, because the
code measures logContent.length in UTF-16 code units (600,000 here); the
byte-exact claim prescribes a different surfaced value at this input. -/
theorem execution_log_truncation_counterexample :
    (utf8Encode umlautContent).length = 1200000 ∧
    MAX_LOG_SIZE < 1200000 ∧
    readLogResult (some umlautContent) logNoticeUnits = umlautContent ∧
    utf8Encode (readLogResult (some umlautContent) logNoticeUnits) ≠
      claimSurfacedBytes umlautContent logNoticeUnits := by
  have hunit : utf8EncodeUnit 228 = [195, 164] := rfl
  have hlen : (utf8Encode umlautContent).length = 1200000 := by
    unfold utf8Encode umlautContent
    rw [List.map_replicate, hunit, List.length_flatten, List.map_replicate]
    rw [show ([195, 164] : List Nat).length = 2 from rfl]
    rw [List.sum_replicate, smul_eq_mul]
  have hsurf : readLogResult (some umlautContent) logNoticeUnits = umlautContent := by
    unfold readLogResult truncateContent
    dsimp only
    rw [if_neg (by
      rw [show umlautContent.length = 600000 from by
        unfold umlautContent; rw [List.length_replicate]]
      decide)]
  have hnotice : (utf8Encode logNoticeUnits).length = 39 := by decide
  refine ⟨hlen, by decide, hsurf, ?_⟩
  rw [hsurf]
  unfold claimSurfacedBytes
  rw [if_neg (by rw [hlen]; decide)]
  intro h
  have hcon := congrArg List.length h
  rw [hlen, List.length_append, List.length_take, hlen, hnotice] at hcon
  simp only [MAX_LOG_SIZE] at hcon
  omega

/-- C8 amended: v5 execution-log extraction truncates exactly at 1,048,576
UTF-16 code units — the unit the JavaScript string length measures — not
bytes: a readable content of at most MAX_LOG_SIZE units is surfaced
unmodified, a larger one as exactly its first MAX_LOG_SIZE units followed by
the truncation notice, and a missing or unreadable file yields the empty
string. -/
theorem execution_log_truncation_amended (logId pod : String)
    (logRead errRead : Option JsStr) (hlog : logId ≠ "") :
    extractExecutionLogs "v5" logId true (some pod) logRead errRead =
      ((match logRead with
        | none => []
        | some c => truncateSpec c logNoticeUnits),
       (match errRead with
        | none => []
        | some c => truncateSpec c errorNoticeUnits)) ∧
    (∀ c n, truncateContent c n = truncateSpec c n) := by
  have ht : ∀ c n, truncateContent c n = truncateSpec c n := by
    intro c n
    unfold truncateContent truncateSpec
    by_cases h : c.length > MAX_LOG_SIZE
    · rw [if_pos h, if_neg (by omega)]
    · rw [if_neg h, if_pos (by omega)]
  refine ⟨?_, ht⟩
  unfold extractExecutionLogs
  simp only [hlog]
  rw [if_pos (by simp [hlog])]
  unfold readLogResult
  cases logRead <;> cases errRead <;> simp [ht]

/-- C8 amended witness: a short readable logs file is surfaced unmodified
and a missing errors file becomes the empty string. -/
theorem execution_log_truncation_amended_witness :
    extractExecutionLogs "v5" "log1" true (some "pod-1") (some [104, 105]) none =
      ([104, 105], []) := by
  rw [(execution_log_truncation_amended "log1" "pod-1" (some [104, 105]) none
    (by decide)).1]
  rfl

/-- C6 counterexample: the header name a occurs twice, but because the first
stored value is the empty string (falsy), the truthiness check overwrites it
instead of promoting to a list, so the surfaced value is the plain string x
rather than the ordered list of both values the claim demands. -/
theorem surfaced_headers_counterexample :
    lookupH (processHeaders [("a", ""), ("a", "x")]) "a" = some (HVal.single "x") ∧
    some (HVal.single "x") ≠ some (HVal.vlist ["", "x"]) := by
  decide

/-- C6 amended: surfaced header keys are lowercased input names;
x-open-runtimes- prefixed names never appear; the value stored for a name is
the ordered, oldest-first list of its occurrences starting from the first
nonempty value (occurrences stored while the value is the empty string are
overwritten by the next occurrence rather than promoted to a list; a single
surviving value stays a plain string); and when x-executor-response-format
precedes 0.11.0 every list value is collapsed to its last element. -/
theorem surfaced_headers_amended :
    (∀ (hs : List (String × String)) p, p ∈ processHeaders hs →
      ∃ kv, kv ∈ hs ∧ p.1 = jsToLower kv.1 ∧
        jsStartsWith p.1 "x-open-runtimes-" = false) ∧
    (∀ (hs : List (String × String)) k,
      jsStartsWith k "x-open-runtimes-" = true →
      lookupH (processHeaders hs) k = none) ∧
    (∀ (hs : List (String × String)) k,
      jsStartsWith k "x-open-runtimes-" = false →
      lookupH (processHeaders hs) k = squashSpec (valuesFor hs k)) ∧
    (∀ (fmt : String) (m : HMap) (k : String) (vs : List String),
      jsStrLt fmt "0.11.0" = true → lookupH m k = some (HVal.vlist vs) →
      lookupH (surfaceHeaders (some fmt) m) k =
        some (HVal.single (vs.getLast?.getD ""))) := by
  refine ⟨?_, ?_, ?_, ?_⟩
  · intro hs p hp
    rcases processHeaders_keys hs [] p hp with h | h
    · simp at h
    · obtain ⟨kv, hkv, hpk, hks⟩ := h
      exact ⟨kv, hkv, hpk, by rw [hpk]; exact hks⟩
  · intro hs k hk
    cases hl : lookupH (processHeaders hs) k with
    | none => rfl
    | some v =>
      have hmem : k ∈ (processHeaders hs).map Prod.fst :=
        lookupH_isSome_key_mem _ k (by rw [hl]; rfl)
      obtain ⟨p, hp, hpk⟩ := List.mem_map.mp hmem
      rcases processHeaders_keys hs [] p hp with h | h
      · simp at h
      · obtain ⟨kv, -, hpk2, hks⟩ := h
        rw [← hpk, hpk2, hks] at hk
        exact absurd hk (by simp)
  · intro hs k hk
    unfold processHeaders
    rw [foldl_addRespHeader_lookup k hk hs []]
    exact squashStep_none_eq_spec _
  · intro fmt m k vs hlt hm
    unfold surfaceHeaders
    simp only [Option.getD_some]
    rw [if_pos hlt, lookupH_map_collapse, hm]
    rfl

/-- C6 amended witness: two occurrences of a (one uppercased) surface as the
ordered list, the internal log-id header is absent, and the pre-0.11.0
format collapses the list to its last value. -/
theorem surfaced_headers_amended_witness :
    lookupH (processHeaders [("A", "1"), ("a", "2"), ("X-Open-Runtimes-Log-Id", "z")]) "a" =
      some (HVal.vlist ["1", "2"]) ∧
    lookupH (processHeaders [("A", "1"), ("a", "2"), ("X-Open-Runtimes-Log-Id", "z")])
      "x-open-runtimes-log-id" = none ∧
    lookupH (surfaceHeaders (some "0.10.0") [("a", HVal.vlist ["1", "2"])]) "a" =
      some (HVal.single "2") := by
  refine ⟨?_, ?_, ?_⟩
  · rw [surfaced_headers_amended.2.2.1 [("A", "1"), ("a", "2"),
      ("X-Open-Runtimes-Log-Id", "z")] "a" (by decide)]
    decide
  · exact surfaced_headers_amended.2.1 _ "x-open-runtimes-log-id" (by decide)
  · rw [surfaced_headers_amended.2.2.2 "0.10.0" [("a", HVal.vlist ["1", "2"])] "a"
      ["1", "2"] (by decide) (by decide)]
    decide

/-- C9 counterexample: for the parsed limit value 0 the claim asks for the
clamp to 1, but the route keeps the default 25. -/
theorem limit_clamp_counterexample :
    effectiveLimit (some "0") = 25 ∧ claimClampLimit (some "0") = 1 ∧
    (25 : Int) ≠ 1 := by
  decide

/-- C9 amended: the effective limit is 25 when the parameter is absent,
unparsable, or parses to a value below 1, and otherwise the parsed value
capped at 100 (so every parsed value above 100 yields 100); the
X-PAGINATION-LIMIT header always equals the effective limit. -/
theorem limit_clamp_amended :
    effectiveLimit none = 25 ∧
    (∀ s v, jsParseInt10 s = some v → 0 < v → effectiveLimit (some s) = min v 100) ∧
    (∀ s v, jsParseInt10 s = some v → 100 < v → effectiveLimit (some s) = 100) ∧
    (∀ s v, jsParseInt10 s = some v → v ≤ 0 → effectiveLimit (some s) = 25) ∧
    (∀ s, jsParseInt10 s = none → effectiveLimit (some s) = 25) ∧
    (∀ p, paginationLimitHdr p = toString (effectiveLimit p)) := by
  have hbase : ∀ s v, jsParseInt10 s = some v → 0 < v →
      effectiveLimit (some s) = min v 100 := by
    intro s v hp hv
    rcases eq_or_ne s "" with rfl | hs
    · rw [show jsParseInt10 "" = none from rfl] at hp
      exact Option.noConfusion hp
    · simp [effectiveLimit, hs, hp, hv, maxLimit]
  refine ⟨rfl, hbase, ?_, ?_, ?_, fun p => rfl⟩
  · intro s v hp hv
    rw [hbase s v hp (by omega)]
    omega
  · intro s v hp hv
    rcases eq_or_ne s "" with rfl | hs
    · rfl
    · have hnv : ¬ (0 : Int) < v := by omega
      simp [effectiveLimit, hs, hp, hnv, defaultLimit]
  · intro s hp
    rcases eq_or_ne s "" with rfl | hs
    · rfl
    · simp [effectiveLimit, hs, hp, defaultLimit]

/-- C2: on invocation, a Deployment with replicas 0 gets exactly one
JSON-patch of /spec/replicas to 1 and one with nonzero replicas gets none;
the readiness wait succeeds iff some 500 ms poll within the 60 s window
observes readyReplicas equal to 1, and otherwise the invocation fails with a
runtime_timeout error at HTTP status 504. -/
theorem cold_start_protocol (deploymentName : String) (replicas : Option Int)
    (obs : Nat → Option Int) :
    (replicas = some 0 →
      coldStartPatchActions deploymentName replicas =
        [K8sAction.patchReplicas deploymentName 1]) ∧
    (∀ r, replicas = some r → r ≠ 0 →
      coldStartPatchActions deploymentName replicas = []) ∧
    (waitPodReady obs = true ↔
      ∃ n, readyPollIntervalMs * n < readyTimeoutMs ∧ obs n = some 1) ∧
    ((¬ ∃ n, readyPollIntervalMs * n < readyTimeoutMs ∧ obs n = some 1) →
      invokeReadyPhase deploymentName replicas obs =
        (coldStartPatchActions deploymentName replicas,
          some (createErrorResponse "runtime_timeout"
            "Runtime failed to become ready in time" 500, 504))) := by
  have hiff : waitPodReady obs = true ↔
      ∃ n, readyPollIntervalMs * n < readyTimeoutMs ∧ obs n = some 1 := by
    unfold waitPodReady
    rw [waitReadyFrom_iff_aux obs 60000 0 0 (by omega)]
    simp only [readyPollIntervalMs, readyTimeoutMs, Nat.zero_add]
  refine ⟨?_, ?_, hiff, ?_⟩
  · intro h
    rw [h]
    rfl
  · intro r hr hne
    rw [hr]
    unfold coldStartPatchActions
    rw [if_neg (by simpa using hne)]
  · intro hno
    unfold invokeReadyPhase
    have : waitPodReady obs = false := by
      cases hw : waitPodReady obs with
      | false => rfl
      | true => exact absurd (hiff.mp hw) hno
    rw [this]
    simp

/-- C2 witness: with replicas 0 the patch is issued; with replicas 1 it is
not; and when no poll ever observes readyReplicas 1 the phase ends in the
runtime_timeout error at HTTP 504. -/
theorem cold_start_protocol_witness :
    coldStartPatchActions "dep-r4" (some 0) = [K8sAction.patchReplicas "dep-r4" 1] ∧
    coldStartPatchActions "dep-r4" (some 1) = [] ∧
    invokeReadyPhase "dep-r4" (some 1) (fun _ => some 0) =
      ([], some (createErrorResponse "runtime_timeout"
        "Runtime failed to become ready in time" 500, 504)) := by
  have h0 := cold_start_protocol "dep-r4" (some 0) (fun _ => some 0)
  have h1 := cold_start_protocol "dep-r4" (some 1) (fun _ => some 0)
  refine ⟨h0.1 rfl, h1.2.1 1 rfl (by decide), ?_⟩
  have := h1.2.2.2 (by rintro ⟨n, -, hn⟩; exact absurd hn (by simp))
  rw [this, h1.2.1 1 rfl (by decide)]

/-- C5: checkPodListening returns true iff some attempt reached within the
window (attempts are separated by the failed duration, capped by the 2 s
per-attempt abort, plus the 500 ms retry delay) received a TCP-level
response; the result depends only on which attempts got any response at all,
never on the status code, and when every attempt fails it is false. -/
theorem waitListening_true_iff_response (attempt : Nat → Option Nat)
    (dur : Nat → Nat) (timeoutMs : Nat) :
    (checkPodListening attempt dur timeoutMs = true ↔
      ∃ n, (∀ j, j < n → attempt j = none) ∧
        listenLeadFrom dur 0 n < timeoutMs ∧ (attempt n).isSome = true) ∧
    (∀ attempt2 : Nat → Option Nat,
      (∀ n, (attempt n).isSome = (attempt2 n).isSome) →
      checkPodListening attempt dur timeoutMs =
        checkPodListening attempt2 dur timeoutMs) ∧
    ((∀ n, attempt n = none) → checkPodListening attempt dur timeoutMs = false) := by
  have hiff : ∀ a : Nat → Option Nat,
      checkPodListening a dur timeoutMs = true ↔
        ∃ n, (∀ j, j < n → a j = none) ∧
          listenLeadFrom dur 0 n < timeoutMs ∧ (a n).isSome = true := by
    intro a
    unfold checkPodListening
    rw [checkListeningFrom_iff_aux a dur timeoutMs timeoutMs 0 0 (by omega)]
    simp only [Nat.zero_add]
  refine ⟨hiff attempt, ?_, ?_⟩
  · intro attempt2 hsame
    have hmain : (checkPodListening attempt dur timeoutMs = true) ↔
        (checkPodListening attempt2 dur timeoutMs = true) := by
      rw [hiff attempt, hiff attempt2]
      constructor
      · rintro ⟨n, hfail, hlt, hs⟩
        refine ⟨n, ?_, hlt, by rw [← hsame n]; exact hs⟩
        intro j hj
        have := hsame j
        rw [hfail j hj] at this
        exact Option.not_isSome_iff_eq_none.mp (by rw [← this]; simp)
      · rintro ⟨n, hfail, hlt, hs⟩
        refine ⟨n, ?_, hlt, by rw [hsame n]; exact hs⟩
        intro j hj
        have := hsame j
        rw [hfail j hj] at this
        exact Option.not_isSome_iff_eq_none.mp (by rw [this]; simp)
    cases h1 : checkPodListening attempt dur timeoutMs with
    | true => exact (hmain.mp h1).symm
    | false =>
      cases h2 : checkPodListening attempt2 dur timeoutMs with
      | true => exact absurd (hmain.mpr h2) (by rw [h1]; simp)
      | false => rfl
  · intro hall
    cases h1 : checkPodListening attempt dur timeoutMs with
    | false => rfl
    | true =>
      obtain ⟨n, -, -, hs⟩ := (hiff attempt).mp h1
      rw [hall n] at hs
      exact absurd hs (by simp)

/-- C5 witness: an attempt sequence whose third attempt receives a 404
response yields true within a 3 s window, and an all-failing sequence yields
false. -/
theorem waitListening_true_iff_response_witness :
    checkPodListening (fun i => if i = 2 then some 404 else none) (fun _ => 100) 3000 = true ∧
    checkPodListening (fun _ => none) (fun _ => 100) 3000 = false := by
  constructor
  · exact (waitListening_true_iff_response (fun i => if i = 2 then some 404 else none)
      (fun _ => 100) 3000).1.mpr
      ⟨2, by decide, by decide, by decide⟩
  · exact (waitListening_true_iff_response (fun _ => none)
      (fun _ => 100) 3000).2.2 (fun _ => rfl)

/-- C3: in a held reaper cycle over well-formed runtime Deployments (name
and runtime-id label set and a parsable last-execution-time annotation, as
the executor always creates them), replicas is patched to 0 exactly for
those with replicas 1 whose last execution time is strictly older than the
inactive threshold; a Deployment within the threshold is never selected and
one with replicas other than 1 is never selected. -/
theorem reaper_scales_exactly_idle (nowMs thresholdMs : Int)
    (deps : List DepInfo) (hw : ∀ d ∈ deps, depWellFormed d = true) :
    reapCycle nowMs thresholdMs deps =
      (deps.filter (reapClaimEligible nowMs thresholdMs)).map
        (fun d => d.name.getD "") ∧
    (∀ d, nowMs - (lastExecMs d).getD 0 ≤ thresholdMs →
      reapEligible nowMs thresholdMs d = false) ∧
    (∀ d, d.replicas ≠ some 1 → reapEligible nowMs thresholdMs d = false) := by
  refine ⟨?_, ?_, ?_⟩
  · unfold reapCycle
    rw [List.filter_congr (fun d hd => reapEligible_eq_claim nowMs thresholdMs d (hw d hd))]
  · intro d hle
    unfold reapEligible
    obtain ⟨name, rid, lastAnn, repl⟩ := d
    cases rid with
    | none => rfl
    | some r =>
      cases name with
      | none => rfl
      | some nm =>
        dsimp only
        by_cases hr : r = ""
        · rw [if_pos hr]
        · rw [if_neg hr]
          by_cases hnm : nm = ""
          · rw [if_pos hnm]
          · rw [if_neg hnm]
            by_cases hrep : repl = some 1
            · rw [if_pos (by simpa using hrep)]
              cases hl : lastExecMs ⟨some nm, some r, lastAnn, repl⟩ with
              | none => rfl
              | some l =>
                rw [hl] at hle
                simp only [Option.getD_some] at hle
                simp [hle]
            · rw [if_neg (by simpa using hrep)]
  · intro d hrep
    unfold reapEligible
    obtain ⟨name, rid, lastAnn, repl⟩ := d
    cases rid with
    | none => rfl
    | some r =>
      cases name with
      | none => rfl
      | some nm =>
        dsimp only
        by_cases hr : r = ""
        · rw [if_pos hr]
        · rw [if_neg hr]
          by_cases hnm : nm = ""
          · rw [if_pos hnm]
          · rw [if_neg hnm]
            rw [if_neg (by simpa using hrep)]

/-- C3 witness: of three well-formed runtime Deployments, only the warm one
idle for longer than the threshold is scaled down; the recently executed one
and the already cold one are untouched. -/
theorem reaper_scales_exactly_idle_witness :
    reapCycle 400000 300000
      [⟨some "dep-r5", some "r5", some "0", some 1⟩,
       ⟨some "dep-r7", some "r7", some "350000", some 1⟩,
       ⟨some "dep-r8", some "r8", some "0", some 0⟩] = ["dep-r5"] := by
  rw [(reaper_scales_exactly_idle 400000 300000 _ (by decide)).1]
  decide

/-- C10: a well-formed warm runtime Deployment without a last-execution-time
annotation is treated as last executed at the epoch (time 0), and as soon as
the current time exceeds the inactive threshold it is scaled to 0 replicas in
the first held cycle that lists it. -/
theorem reaper_scales_never_invoked (nowMs thresholdMs : Int) (d : DepInfo)
    (hw : depWellFormed d = true) (habs : d.lastExecAnn = none)
    (hrep : d.replicas = some 1) (hnow : thresholdMs < nowMs) :
    lastExecMs d = some 0 ∧
    reapEligible nowMs thresholdMs d = true ∧
    (∀ deps, d ∈ deps → (d.name.getD "") ∈ reapCycle nowMs thresholdMs deps) := by
  have h0 : lastExecMs d = some 0 := by
    unfold lastExecMs
    rw [habs]
  have helig : reapEligible nowMs thresholdMs d = true := by
    rw [reapEligible_eq_claim nowMs thresholdMs d hw]
    unfold reapClaimEligible
    rw [h0]
    simp [hrep]
    omega
  refine ⟨h0, helig, ?_⟩
  intro deps hd
  unfold reapCycle
  exact List.mem_map_of_mem _ (List.mem_filter.mpr ⟨hd, helig⟩)

/-- C10 witness: a warm runtime with no last-execution-time annotation is
eligible for scale-down once the clock passes the threshold. -/
theorem reaper_scales_never_invoked_witness :
    reapEligible 400000 300000 ⟨some "dep-r6", some "r6", none, some 1⟩ = true ∧
    "dep-r6" ∈ reapCycle 400000 300000 [⟨some "dep-r6", some "r6", none, some 1⟩] := by
  have h := reaper_scales_never_invoked 400000 300000
    ⟨some "dep-r6", some "r6", none, some 1⟩ (by decide) rfl rfl (by decide)
  exact ⟨h.2.1, h.2.2 _ (by decide)⟩

/-- C9 amended witness: the parameter 250 parses above the cap and yields
the effective limit 100, surfaced verbatim in the pagination header. -/
theorem limit_clamp_amended_witness :
    effectiveLimit (some "250") = 100 ∧ paginationLimitHdr (some "250") = "100" := by
  have h1 := limit_clamp_amended.2.2.1 "250" 250 (by decide) (by decide)
  have h2 := limit_clamp_amended.2.2.2.2.2 (some "250")
  exact ⟨h1, by rw [h2, h1]; rfl⟩

end Executor
